import Mathlib

/-!
Verification of the configuration-resolution and CI-task-planning core of
cargo-dist, shallowly embedded from
`src/cargo-dist/src/backend/ci/github.rs` and
`src/cargo-dist/src/config/v1/mod.rs`.

Rust strings are Lean `String`s; `str::contains`, `str::starts_with` and
`str::ends_with` are re-implemented over character lists so that every
definition evaluates by kernel reduction.  `HashMap`/`BTreeMap` values are
modelled as association lists (the `BTreeMap` keeping its keys sorted on
insertion, matching iteration order).
-/

namespace CargoDist

/-- `List Char` version of `str::starts_with`: does the second list start
with the first? -/
def isPrefixOfL : List Char → List Char → Bool
  | [], _ => true
  | _ :: _, [] => false
  | a :: as, b :: bs => a == b && isPrefixOfL as bs

/-- Helper for `strContains`: does `pat` occur as a contiguous run inside
the list? -/
def containsSubAux (pat : List Char) : List Char → Bool
  | [] => isPrefixOfL pat []
  | c :: rest => isPrefixOfL pat (c :: rest) || containsSubAux pat rest

/-- Model of Rust `str::contains` (substring search). -/
def strContains (s pat : String) : Bool :=
  containsSubAux pat.data s.data

/-- Model of Rust `str::starts_with`. -/
def strStartsWith (s pat : String) : Bool :=
  isPrefixOfL pat.data s.data

/-- Model of Rust `str::ends_with`. -/
def strEndsWith (s pat : String) : Bool :=
  isPrefixOfL pat.data.reverse s.data.reverse

/-- Lexicographic order on character lists, modelling Rust `String`
ordering (used for `BTreeMap` key order). -/
def charListLt : List Char → List Char → Bool
  | [], [] => false
  | [], _ :: _ => true
  | _ :: _, [] => false
  | a :: as, b :: bs =>
    if a.toNat < b.toNat then true
    else if b.toNat < a.toNat then false
    else charListLt as bs

/-- Model of the Rust `String` order used by `BTreeMap` keys. -/
def strLt (a b : String) : Bool := charListLt a.data b.data

/-! ## Runner constants, from `backend/ci/github.rs` -/

/-- The Github Runner to use for Linux (`GITHUB_LINUX_RUNNER`). -/
def GITHUB_LINUX_RUNNER : String := "ubuntu-20.04"

/-- The Github Runner to use for Intel macos (`GITHUB_MACOS_INTEL_RUNNER`). -/
def GITHUB_MACOS_INTEL_RUNNER : String := "macos-12"

/-- The Github Runner to use for Apple Silicon macos (`GITHUB_MACOS_ARM64_RUNNER`). -/
def GITHUB_MACOS_ARM64_RUNNER : String := "macos-12"

/-- The Github Runner to use for windows (`GITHUB_WINDOWS_RUNNER`). -/
def GITHUB_WINDOWS_RUNNER : String := "windows-2019"

/-- Association-list lookup with string keys, modelling
`HashMap::get` on the `custom_runners` table (exact string match). -/
def lookupStr : List (String × String) → String → Option String
  | [], _ => none
  | (k, v) :: rest, key => if key == k then some v else lookupStr rest key

/-- Embedding of `github_runner_for_target`: override table first (exact
match), then substring family rules in source order
(linux, x86_64-apple, aarch64-apple, windows), else `None`. -/
def github_runner_for_target (target : String)
    (custom_runners : List (String × String)) : Option String :=
  match lookupStr custom_runners target with
  | some runner => some runner
  | none =>
    if strContains target "linux" then some GITHUB_LINUX_RUNNER
    else if strContains target "x86_64-apple" then some GITHUB_MACOS_INTEL_RUNNER
    else if strContains target "aarch64-apple" then some GITHUB_MACOS_ARM64_RUNNER
    else if strContains target "windows" then some GITHUB_WINDOWS_RUNNER
    else none

/-- The `unwrap_or_else` fallback both distribution strategies wrap around
`github_runner_for_target`: on `None`, warn and use the Linux runner.  The
boolean records whether the warning was emitted (the `warn!` channel). -/
def resolve_runner_with_default (target : String)
    (custom_runners : List (String × String)) : String × Bool :=
  match github_runner_for_target target custom_runners with
  | some runner => (runner, false)
  | none => (GITHUB_LINUX_RUNNER, true)

/-- `BTreeMap` lookup on the runner-group map. -/
def findGroup : List (String × List String) → String → Option (List String)
  | [], _ => none
  | (k, ts) :: rest, key => if key == k then some ts else findGroup rest key

/-- Model of `groups.entry(runner).or_default().push(target)` on a
`SortedMap` (`BTreeMap`): append the target to the group of the key,
creating the group at its sorted position when absent. -/
def insertGroup : List (String × List String) → String → String →
    List (String × List String)
  | [], k, t => [(k, [t])]
  | (k', ts) :: rest, k, t =>
    if k == k' then (k', ts ++ [t]) :: rest
    else if strLt k k' then (k, [t]) :: (k', ts) :: rest
    else (k', ts) :: insertGroup rest k t

/-- Loop body of `distribute_targets_to_runners_merged`, threading the
accumulated `SortedMap` and collecting warned targets. -/
def distribute_merged_go (custom_runners : List (String × String)) :
    List String → List (String × List String) →
    List (String × List String) × List String
  | [], acc => (acc, [])
  | t :: rest, acc =>
    let rw := resolve_runner_with_default t custom_runners
    let res := distribute_merged_go custom_runners rest (insertGroup acc rw.1 t)
    (res.1, if rw.2 then t :: res.2 else res.2)

/-- Embedding of `distribute_targets_to_runners_merged`: group the target
set by resolved runner in a `SortedMap`.  The input list is the sorted,
duplicate-free iteration sequence of the `SortedSet` of targets; the second
component collects the targets for which the unknown-runner warning fired. -/
def distribute_targets_to_runners_merged (targets : List String)
    (custom_runners : List (String × String)) :
    List (String × List String) × List String :=
  distribute_merged_go custom_runners targets []

/-- Embedding of `distribute_targets_to_runners_split`: every target gets
its own singleton group.  Second component as in the merged strategy. -/
def distribute_targets_to_runners_split :
    List String → List (String × String) →
    List (String × List String) × List String
  | [], _ => ([], [])
  | t :: rest, custom_runners =>
    let rw := resolve_runner_with_default t custom_runners
    let res := distribute_targets_to_runners_split rest custom_runners
    ((rw.1, [t]) :: res.1, if rw.2 then t :: res.2 else res.2)

/-- Embedding of `install_dist_for_targets`.  The source returns early for
the first target containing `linux`/`apple` (shell installer) or `windows`
(powershell installer); if the loop finishes without matching, it executes
`unreachable!("internal error: unknown target triple!?")`.  That panic is
modelled as `none`. -/
def install_dist_for_targets :
    List String → String → String → Option String
  | [], _, _ => none
  | t :: rest, install_sh, install_ps1 =>
    if strContains t "linux" || strContains t "apple" then some install_sh
    else if strContains t "windows" then some install_ps1
    else install_dist_for_targets rest install_sh install_ps1

/-! ## System dependencies

`SystemDependencies`, `SystemDependency` and `DependencyKind` live in the
config module, which is not part of the two source files; they are
modelled from the spec. -/

/-- Modelled from the spec: the build-stage applicability domain of a
system dependency declaration ("needed only at build time" vs "needed at
run time"); `DependencyKind` from the config module, not in src. -/
inductive DependencyKind where
  | build
  | run
deriving DecidableEq

/-- Modelled from the spec: a system dependency specification carrying an
optional version pin, a target-applicability predicate and a build-stage
applicability predicate (`SystemDependency` from the config module, not in
src). -/
structure SystemDependency where
  version : Option String
  wanted_for_target : String → Bool
  stage_wanted : DependencyKind → Bool

/-- Modelled from the spec: per package-manager-family mapping from package
name to its specification (`SystemDependencies` from the config module, not
in src).  The sorted maps are modelled as association lists in iteration
order. -/
structure SystemDependencies where
  homebrew : List (String × SystemDependency)
  apt : List (String × SystemDependency)
  chocolatey : List (String × SystemDependency)

/-- Embedding of `brewfile_from`: cask-prefixed packages get the `cask`
verb, the rest the `brew` verb. -/
def brewfile_from (packages : List String) : String :=
  String.intercalate "\n" (packages.map (fun p =>
    let lower := p.toLower
    if strStartsWith lower "homebrew/cask" || strStartsWith lower "homebrew/homebrew-cask" then
      "cask \"" ++ p ++ "\""
    else
      "brew \"" ++ p ++ "\""))

/-- Embedding of `brew_bundle_command`. -/
def brew_bundle_command (packages : List String) : String :=
  "cat << EOF >Brewfile\n" ++ brewfile_from packages ++ "\nEOF\n\nbrew bundle install"

/-- The apple-darwin triples of the `match` in `package_install_for_targets`. -/
def appleTargets : List String :=
  ["i686-apple-darwin", "x86_64-apple-darwin", "aarch64-apple-darwin"]

/-- The linux triples of the `match` in `package_install_for_targets`. -/
def linuxTargets : List String :=
  ["i686-unknown-linux-gnu", "x86_64-unknown-linux-gnu", "aarch64-unknown-linux-gnu",
   "i686-unknown-linux-musl", "x86_64-unknown-linux-musl", "aarch64-unknown-linux-musl"]

/-- The windows-msvc triples of the `match` in `package_install_for_targets`. -/
def windowsTargets : List String :=
  ["i686-pc-windows-msvc", "x86_64-pc-windows-msvc", "aarch64-pc-windows-msvc"]

/-- The homebrew branch: names of declarations wanted for the target at
build stage. -/
def homebrewFiltered (target : String) (packages : SystemDependencies) : List String :=
  (packages.homebrew.filter (fun p =>
    p.2.wanted_for_target target && p.2.stage_wanted DependencyKind.build)).map
    (fun p => p.1)

/-- The apt branch before the musl append: filtered declarations rendered
as `name=version` pairs (bare name when no pin). -/
def aptFiltered (target : String) (packages : SystemDependencies) : List String :=
  (packages.apt.filter (fun p =>
    p.2.wanted_for_target target && p.2.stage_wanted DependencyKind.build)).map
    (fun p => match p.2.version with
      | some version => p.1 ++ "=" ++ version
      | none => p.1)

/-- The chocolatey branch: one `choco install` invocation per filtered
declaration, version pin inlined as a flag. -/
def chocoCommands (target : String) (packages : SystemDependencies) : List String :=
  (packages.chocolatey.filter (fun p =>
    p.2.wanted_for_target target && p.2.stage_wanted DependencyKind.build)).map
    (fun p => match p.2.version with
      | some version => "choco install " ++ p.1 ++ " --version=" ++ version
      | none => "choco install " ++ p.1)

/-- Embedding of `package_install_for_targets`: scan the group's targets
in order, dispatch on the first one matching a known family's triple list
(the FIXME'd mixed-OS limitation), render that family's install command,
returning `none` when the rendered set is empty. -/
def package_install_for_targets :
    List String → SystemDependencies → Option String
  | [], _ => none
  | target :: rest, packages =>
    if target ∈ appleTargets then
      let ps := homebrewFiltered target packages
      if ps.isEmpty then none else some (brew_bundle_command ps)
    else if target ∈ linuxTargets then
      let ps := aptFiltered target packages
      let ps := if strEndsWith target "linux-musl" then ps ++ ["musl-tools"] else ps
      if ps.isEmpty then none
      else some ("sudo apt-get update && sudo apt-get install " ++
        String.intercalate " " ps)
    else if target ∈ windowsTargets then
      let cmds := chocoCommands target packages
      if cmds.isEmpty then none else some (String.intercalate "\n" cmds)
    else package_install_for_targets rest packages

/-! ## Vendoring integrity verifier, from `vendor_repo` -/

/-- The error kinds `vendor_repo` can surface: the dedicated
`DistError::VendoredActionHashMismatch` variant (carrying expected hash,
actual hash and repository identity) and the transport/filesystem errors
propagated through `?` (collapsed into one constructor). -/
inductive VendorError where
  | vendoredActionHashMismatch (expected actual repo : String)
  | ioError
deriving DecidableEq

/-- The effect environment of one `vendor_repo` invocation: the content
hash function (SHA-256 abstracted as a function of the raw bytes), the
fetch outcome (`none` is a network failure) and success flags for the four
filesystem operations (`remove_dir_all`, tmp `write`, `untar_gz_all`,
`rename`). -/
structure VendorEnv where
  hash : List Nat → String
  fetch : Option (List Nat)
  remove_ok : Bool
  write_ok : Bool
  untar_ok : Bool
  rename_ok : Bool

/-- Filesystem state observed at the destination path
`root.join(repo.repo)`: `none` when absent, otherwise the bytes of the
vendored archive it was produced from. -/
structure FsState where
  dest : Option (List Nat)
deriving DecidableEq

/-- Embedding of `vendor_repo`, stepping through the source order: remove
any prior vendored copy, fetch, hash, compare against `expected_hash`
(mismatch errors out), write the tmp tarball, extract next to the
destination, rename into the destination.  Returns the operation outcome
together with the final destination state. -/
def vendor_repo (env : VendorEnv) (repo : String) (expected_hash : String)
    (st : FsState) : Except VendorError Unit × FsState :=
  if st.dest.isSome && !env.remove_ok then (Except.error VendorError.ioError, st)
  else
    let st1 : FsState := ⟨none⟩
    match env.fetch with
    | none => (Except.error VendorError.ioError, st1)
    | some bytes =>
      let hash_string := env.hash bytes
      if hash_string != expected_hash then
        (Except.error (VendorError.vendoredActionHashMismatch expected_hash hash_string repo), st1)
      else if !env.write_ok then (Except.error VendorError.ioError, st1)
      else if !env.untar_ok then (Except.error VendorError.ioError, st1)
      else if !env.rename_ok then (Except.error VendorError.ioError, st1)
      else (Except.ok (), ⟨some bytes⟩)

/-! ## Configuration resolution, from `config/v1/mod.rs`

The sub-config modules (`artifacts`, `builds`, `ci`, `hosts`,
`installers`, `publishers`) and the generic `layer` module are not among
the source files, so their internals are modelled from the spec: a
sub-config is a record of leaf fields (here a fixed arity of three,
indexed by `SubIx`), a sub-layer is the same record with every field
optional, and merging overwrites exactly the set fields.  Field values are
`Value := List Nat`, rich enough to model the path-bearing fields the path
normalizer rewrites (a path is its segment list; a leading `0` segment
marks an absolute path). -/

/-- Leaf field values of the configuration model. -/
abbrev Value := List Nat

/-- Field index of a sub-config record (fixed arity three). -/
abbrev SubIx := Fin 3

/-- Modelled from the spec: a fully-populated sub-config record (e.g.
`ArtifactConfig`), one value per leaf field. -/
abbrev SubConfig := SubIx → Value

/-- Modelled from the spec: a sparse sub-config record — an inheritable
accumulator (e.g. `BuildConfigInheritable`) or a decoded fragment
sub-layer (e.g. `CiLayer`), each field either unset or set. -/
abbrev SubSparse := SubIx → Option Value

/-- Modelled from the spec: `apply_opt` of the layer module (not in src):
a set fragment value overwrites the accumulator field, an unset one leaves
it untouched. -/
def applyOpt {α : Type} (acc frag : Option α) : Option α :=
  match frag with
  | none => acc
  | some v => some v

/-- Modelled from the spec: `apply_val` of the layer module (not in src):
overwrite the (non-optional) accumulator field when the fragment sets it. -/
def applyVal {α : Type} (acc : α) (frag : Option α) : α :=
  match frag with
  | none => acc
  | some v => v

/-- Modelled from the spec: `apply_val_layer` onto a fully-populated
sub-config: an absent sub-layer leaves it untouched; otherwise each set
field of the sub-layer overwrites the corresponding field. -/
def applyValLayerC (acc : SubConfig) (frag : Option SubSparse) : SubConfig :=
  match frag with
  | none => acc
  | some f => fun i =>
    match f i with
    | some v => v
    | none => acc i

/-- Modelled from the spec: `apply_val_layer` onto an inheritable
(sparse) sub-config accumulator. -/
def applyValLayerI (acc : SubSparse) (frag : Option SubSparse) : SubSparse :=
  match frag with
  | none => acc
  | some f => fun i =>
    match f i with
    | some v => some v
    | none => acc i

/-- Modelled from the spec: the inheritance pass of a sub-config (the
`apply_inheritance_for_package` of the missing sub-modules): fields still
unset after merging fall back to the resolved workspace-scope value. -/
def inheritSub (ws : SubConfig) (acc : SubSparse) : SubConfig :=
  fun i =>
    match acc i with
    | some v => v
    | none => ws i

/-- Embedding of `TomlLayer`: the decoded configuration fragment, every
field optional.  `dist_version` and `allow_dirty` and `targets` carry
opaque `Value`s; the six sub-layers are sparse sub-config records. -/
structure TomlLayer where
  dist_version : Option Value
  dist : Option Bool
  allow_dirty : Option (List Value)
  targets : Option (List Value)
  artifacts : Option SubSparse
  builds : Option SubSparse
  ci : Option SubSparse
  hosts : Option SubSparse
  installers : Option SubSparse
  publishers : Option SubSparse

/-- Embedding of `make_path_relative_to` from `config/v1/mod.rs`: a path
that is not already absolute is joined onto the base directory
(`if !path.is_absolute() { *path = base_path.join(&path) }`); an absolute
path is left as it is.  Paths are modelled as segment lists over the
`Value` type, a leading `0` segment marking an absolute path. -/
def make_path_relative_to (base : Value) (p : Value) : Value :=
  if p.head? = some 0 then p else base ++ p

/-- Modelled from the spec: the fixed, enumerated path-bearing fields of
the `artifacts` sub-layer (`archives.include` entries and the `extra`
working directories in the source). -/
def artifactsPathFields : List Nat := [0, 1]

/-- Modelled from the spec: the fixed path-bearing field of the `hosts`
sub-layer (`github.submodule_path` in the source). -/
def hostsPathFields : List Nat := [0]

/-- Rewrite the designated path-bearing fields of one sub-layer against a
base directory; other fields and unset fields are untouched. -/
def rewriteSub (pathFields : List Nat) (base : Value) (sl : SubSparse) : SubSparse :=
  fun i =>
    if i.val ∈ pathFields then (sl i).map (make_path_relative_to base)
    else sl i

/-- Embedding of `TomlLayer::make_relative_to`: rewrite the
config-file-relative paths inside the `artifacts` and `hosts` sub-layers
(the only path-bearing fields the source visits) against the fragment's
declaring directory. -/
def TomlLayer.make_relative_to (self : TomlLayer) (base : Value) : TomlLayer :=
  { self with
    artifacts := self.artifacts.map (rewriteSub artifactsPathFields base)
    hosts := self.hosts.map (rewriteSub hostsPathFields base) }

/-- Embedding of `WorkspaceConfigInheritable`: the workspace-scope
accumulator (`hosts`, `builds`, `installers` exist on it but are never
touched by `apply_layer`). -/
structure WorkspaceConfigInheritable where
  dist_version : Option Value
  allow_dirty : List Value
  ci : SubSparse
  hosts : SubSparse
  builds : SubSparse
  installers : SubSparse

/-- Embedding of `WorkspaceConfigInheritable::apply_layer`: the fragment's
`ci`, `dist_version` and `allow_dirty` are applied; its app-scope-only
fields (`artifacts`, `builds`, `hosts`, `installers`, `publishers`,
`dist`, `targets`) are explicitly discarded by the destructuring. -/
def WorkspaceConfigInheritable.apply_layer (self : WorkspaceConfigInheritable)
    (layer : TomlLayer) : WorkspaceConfigInheritable :=
  { self with
    ci := applyValLayerI self.ci layer.ci
    dist_version := applyOpt self.dist_version layer.dist_version
    allow_dirty := applyVal self.allow_dirty layer.allow_dirty }

/-- Embedding of `AppConfigInheritable`: the package-scope accumulator
(`artifacts` is already a fully-populated `ArtifactConfig` in the source;
the other four sub-configs are inheritable). -/
structure AppConfigInheritable where
  artifacts : SubConfig
  builds : SubSparse
  hosts : SubSparse
  installers : SubSparse
  publishers : SubSparse
  dist : Option Bool
  targets : List Value

/-- Embedding of `AppConfigInheritable::apply_layer`: the fragment's
app-scope fields are applied; its workspace-scope-only fields (`ci`,
`allow_dirty`, `dist_version`) are explicitly discarded by the
destructuring. -/
def AppConfigInheritable.apply_layer (self : AppConfigInheritable)
    (layer : TomlLayer) : AppConfigInheritable :=
  { self with
    artifacts := applyValLayerC self.artifacts layer.artifacts
    builds := applyValLayerI self.builds layer.builds
    hosts := applyValLayerI self.hosts layer.hosts
    installers := applyValLayerI self.installers layer.installers
    publishers := applyValLayerI self.publishers layer.publishers
    dist := applyOpt self.dist layer.dist
    targets := applyVal self.targets layer.targets }

/-- The resolved workspace-scope values the package inheritance pass falls
back to (derived from the resolved workspace state by the missing
sub-modules; a parameter of the model). -/
structure WorkspaceFallback where
  builds : SubConfig
  hosts : SubConfig
  installers : SubConfig
  publishers : SubConfig

/-- Embedding of the resolved `AppConfig`. -/
structure AppConfig where
  artifacts : SubConfig
  builds : SubConfig
  hosts : SubConfig
  installers : SubConfig
  publishers : SubConfig
  dist : Option Bool
  targets : List Value

/-- Embedding of `AppConfigInheritable::apply_inheritance_for_package`:
`builds`, `hosts`, `installers`, `publishers` run their inheritance pass
against the resolved workspace values; `artifacts`, `dist` and `targets`
pass through unchanged (as in the source destructuring). -/
def AppConfigInheritable.apply_inheritance_for_package
    (self : AppConfigInheritable) (ws : WorkspaceFallback) : AppConfig :=
  { artifacts := self.artifacts
    builds := inheritSub ws.builds self.builds
    hosts := inheritSub ws.hosts self.hosts
    installers := inheritSub ws.installers self.installers
    publishers := inheritSub ws.publishers self.publishers
    dist := self.dist
    targets := self.targets }

/-- Embedding of `app_config`: normalize each fragment against its own
declaring directory, then apply the workspace fragment and the
package-local fragment, in that order, onto the package defaults, then run
the inheritance pass.  `defaults` stands for
`AppConfigInheritable::defaults_for_package` and `ws` for the resolved
workspace state, both derived from project introspection. -/
def app_config (defaults : AppConfigInheritable) (ws : WorkspaceFallback)
    (workspace_dir package_root : Value)
    (global_config local_config : TomlLayer) : AppConfig :=
  let g := global_config.make_relative_to workspace_dir
  let l := local_config.make_relative_to package_root
  ((defaults.apply_layer g).apply_layer l).apply_inheritance_for_package ws

/-! ## Concrete instances used by witnesses and counterexamples -/

/-- The spec's Debian scenario: `libssl-dev` pinned to `3.0`, applicable
to all Linux targets, wanted at build stage only. -/
def c9deps : SystemDependencies :=
  { homebrew := []
    apt := [("libssl-dev",
      { version := some "3.0"
        wanted_for_target := fun t => strContains t "linux"
        stage_wanted := fun k => k == DependencyKind.build })]
    chocolatey := [] }

/-- An effect environment in which the fetch succeeds but the fetched
bytes hash to a value different from the expected hash. -/
def vendorCexEnv : VendorEnv :=
  { hash := fun _ => "actualhash"
    fetch := some [2]
    remove_ok := true
    write_ok := true
    untar_ok := true
    rename_ok := true }

/-- A workspace fragment setting only `dist := false`. -/
def sampleLayerG : TomlLayer :=
  { dist_version := none, dist := some false, allow_dirty := none, targets := none
    artifacts := none, builds := none, ci := none, hosts := none
    installers := none, publishers := none }

/-- A package fragment setting only `dist := true`. -/
def sampleLayerL : TomlLayer :=
  { dist_version := none, dist := some true, allow_dirty := none, targets := none
    artifacts := none, builds := none, ci := none, hosts := none
    installers := none, publishers := none }

/-- Package-scope defaults with everything unset or empty. -/
def sampleDefaults : AppConfigInheritable :=
  { artifacts := fun _ => [], builds := fun _ => none, hosts := fun _ => none
    installers := fun _ => none, publishers := fun _ => none
    dist := none, targets := [] }

/-- Resolved workspace fallback values with every field empty. -/
def sampleWs : WorkspaceFallback :=
  { builds := fun _ => [], hosts := fun _ => [], installers := fun _ => []
    publishers := fun _ => [] }

/-- A workspace accumulator with everything unset or empty. -/
def sampleWsAcc : WorkspaceConfigInheritable :=
  { dist_version := none, allow_dirty := [], ci := fun _ => none
    hosts := fun _ => none, builds := fun _ => none, installers := fun _ => none }

/-- The `BTreeMap` representation invariant of the runner-group model:
keys strictly ascending in the key order. -/
def SortedKeys (m : List (String × List String)) : Prop :=
  m.Pairwise (fun p q => strLt p.1 q.1 = true)

/-! ## Order facts about the `BTreeMap` key order -/

theorem charListLt_irrefl : ∀ l, charListLt l l = false
  | [] => rfl
  | a :: as => by
    simp only [charListLt, Nat.lt_irrefl, if_false]
    exact charListLt_irrefl as

theorem charListLt_trans : ∀ a b c, charListLt a b = true → charListLt b c = true →
    charListLt a c = true
  | [], [], _, h, _ => by simp [charListLt] at h
  | [], _ :: _, [], _, h => by simp [charListLt] at h
  | [], _ :: _, _ :: _, _, _ => rfl
  | _ :: _, [], _, h, _ => by simp [charListLt] at h
  | _ :: _, _ :: _, [], _, h => by simp [charListLt] at h
  | a :: as, b :: bs, c :: cs, h1, h2 => by
    simp only [charListLt] at h1 h2 ⊢
    rcases Nat.lt_trichotomy a.toNat b.toNat with hab | hab | hab
    · rcases Nat.lt_trichotomy b.toNat c.toNat with hbc | hbc | hbc
      · simp [Nat.lt_trans hab hbc]
      · simp [hbc ▸ hab]
      · simp [Nat.lt_asymm hbc, if_neg (Nat.lt_irrefl _)] at h2
        omega
    · rcases Nat.lt_trichotomy b.toNat c.toNat with hbc | hbc | hbc
      · simp [hab ▸ hbc]
      · have hac : a.toNat = c.toNat := hab.trans hbc
        simp only [hab, Nat.lt_irrefl, if_false] at h1
        simp only [hbc, Nat.lt_irrefl, if_false] at h2
        simp only [hac, Nat.lt_irrefl, if_false]
        exact charListLt_trans as bs cs h1 h2
      · simp [Nat.lt_asymm hbc, if_neg (Nat.lt_irrefl _)] at h2
        omega
    · simp [Nat.lt_asymm hab, if_neg (Nat.lt_irrefl _)] at h1
      omega

theorem char_toNat_inj {a b : Char} (h : a.toNat = b.toNat) : a = b :=
  Char.ext (by
    simp only [Char.toNat] at h
    exact UInt32.ext h)

theorem charListLt_total : ∀ a b, a ≠ b → charListLt a b = false → charListLt b a = true
  | [], [], hne, _ => absurd rfl hne
  | [], _ :: _, _, h => by simp [charListLt] at h
  | _ :: _, [], _, _ => rfl
  | a :: as, b :: bs, hne, h => by
    simp only [charListLt] at h ⊢
    rcases Nat.lt_trichotomy a.toNat b.toNat with hab | hab | hab
    · simp [hab] at h
    · have hab' : a = b := char_toNat_inj hab
      subst hab'
      simp only [Nat.lt_irrefl, if_false] at h ⊢
      have hne' : as ≠ bs := fun hh => hne (hh ▸ rfl)
      exact charListLt_total as bs hne' h
    · simp [hab]

theorem string_data_inj {a b : String} (h : a.data = b.data) : a = b := by
  cases a
  cases b
  simp_all

theorem strLt_irrefl (a : String) : strLt a a = false :=
  charListLt_irrefl a.data

theorem strLt_trans {a b c : String} (h1 : strLt a b = true) (h2 : strLt b c = true) :
    strLt a c = true :=
  charListLt_trans a.data b.data c.data h1 h2

theorem strLt_total {a b : String} (hne : a ≠ b) (h : strLt a b = false) :
    strLt b a = true :=
  charListLt_total a.data b.data (fun hd => hne (string_data_inj hd)) h

theorem strLt_ne {a b : String} (h : strLt a b = true) : a ≠ b := by
  intro he
  subst he
  rw [strLt_irrefl] at h
  exact Bool.false_ne_true h

/-! ## `SortedMap` model lemmas -/

theorem keys_insertGroup_subset : ∀ (m : List (String × List String)) k t q,
    q ∈ insertGroup m k t → q.1 = k ∨ q.1 ∈ m.map Prod.fst
  | [], k, t, q, hq => by
    simp only [insertGroup, List.mem_singleton] at hq
    subst hq
    exact Or.inl rfl
  | (k', ts) :: rest, k, t, q, hq => by
    simp only [insertGroup] at hq
    split at hq
    · rcases List.mem_cons.mp hq with hq | hq
      · subst hq
        exact Or.inr (by simp)
      · exact Or.inr (by simp [List.mem_map]; exact Or.inr ⟨q.2, by simpa using hq⟩)
    · split at hq
      · rcases List.mem_cons.mp hq with hq | hq
        · subst hq
          exact Or.inl rfl
        · exact Or.inr (by simpa using List.mem_map_of_mem Prod.fst hq)
      · rcases List.mem_cons.mp hq with hq | hq
        · subst hq
          exact Or.inr (by simp)
        · rcases keys_insertGroup_subset rest k t q hq with h | h
          · exact Or.inl h
          · exact Or.inr (by simp [h])

theorem insertGroup_sorted : ∀ {m : List (String × List String)} (k t : String),
    SortedKeys m → SortedKeys (insertGroup m k t)
  | [], k, t, _ => by
    simp only [insertGroup, SortedKeys]
    exact List.pairwise_singleton _ _
  | (k', ts) :: rest, k, t, h => by
    rcases List.pairwise_cons.mp h with ⟨hhead, htail⟩
    simp only [insertGroup]
    split
    · exact List.pairwise_cons.mpr ⟨hhead, htail⟩
    · split
      · rename_i hne hlt
        refine List.pairwise_cons.mpr ⟨?_, List.pairwise_cons.mpr ⟨hhead, htail⟩⟩
        intro q hq
        rcases List.mem_cons.mp hq with hq | hq
        · subst hq
          exact hlt
        · exact strLt_trans hlt (hhead q hq)
      · rename_i hne hnlt
        have hne' : k' ≠ k := by
          intro he
          exact absurd (by simp [he]) hne
        have hlt' : strLt k' k = true :=
          strLt_total (fun he => hne' he.symm) (by simpa using hnlt)
        refine List.pairwise_cons.mpr ⟨?_, insertGroup_sorted k t htail⟩
        intro q hq
        rcases keys_insertGroup_subset rest k t q hq with hk | hk
        · rw [hk]
          exact hlt'
        · rcases List.mem_map.mp hk with ⟨q0, hq0, hq0k⟩
          rw [← hq0k]
          exact hhead q0 hq0

theorem findGroup_eq_none : ∀ (m : List (String × List String)) (key : String),
    (∀ q ∈ m, q.1 ≠ key) → findGroup m key = none
  | [], _, _ => rfl
  | (k', ts) :: rest, key, h => by
    have hne : k' ≠ key := h (k', ts) (List.mem_cons_self _ _)
    simp only [findGroup]
    rw [if_neg (by simpa using fun he => hne he.symm)]
    exact findGroup_eq_none rest key (fun q hq => h q (List.mem_cons_of_mem _ hq))

theorem mem_findGroup_insertGroup_self : ∀ (m : List (String × List String)) (k t : String),
    t ∈ (findGroup (insertGroup m k t) k).getD []
  | [], k, t => by simp [insertGroup, findGroup]
  | (k', ts) :: rest, k, t => by
    simp only [insertGroup]
    split
    · rename_i heq
      simp only [findGroup]
      rw [if_pos heq]
      simp
    · split
      · simp [findGroup]
      · rename_i hne hnlt
        simp only [findGroup]
        rw [if_neg (by simpa using hne)]
        exact mem_findGroup_insertGroup_self rest k t

theorem mem_findGroup_insertGroup_of_mem :
    ∀ {m : List (String × List String)} {key x : String} (k t : String),
    SortedKeys m → x ∈ (findGroup m key).getD [] →
    x ∈ (findGroup (insertGroup m k t) key).getD []
  | [], key, x, k, t, _, hx => by simp [findGroup] at hx
  | (k', ts) :: rest, key, x, k, t, hs, hx => by
    rcases List.pairwise_cons.mp hs with ⟨hhead, htail⟩
    simp only [insertGroup]
    split
    · rename_i heq
      simp only [findGroup] at hx ⊢
      by_cases hkey : (key == k') = true
      · rw [if_pos hkey] at hx ⊢
        simp only [Option.getD_some] at hx ⊢
        exact List.mem_append_left _ hx
      · rw [if_neg hkey] at hx ⊢
        exact hx
    · rename_i hne
      split
      · rename_i hlt
        simp only [findGroup]
        by_cases hkey : (key == k) = true
        · exfalso
          have hkeyk : key = k := by simpa using hkey
          subst hkeyk
          simp only [findGroup] at hx
          rw [if_neg (by
            intro he
            have : key = k' := by simpa using he
            exact absurd (by simp [this]) hne)] at hx
          rw [findGroup_eq_none rest key (fun q hq => by
            intro he
            have h1 : strLt k' q.1 = true := hhead q hq
            rw [he] at h1
            exact strLt_ne (strLt_trans hlt h1) rfl)] at hx
          simp at hx
        · rw [if_neg hkey]
          exact hx
      · rename_i hnlt
        simp only [findGroup] at hx ⊢
        by_cases hkey : (key == k') = true
        · rw [if_pos hkey] at hx ⊢
          exact hx
        · rw [if_neg hkey] at hx ⊢
          exact mem_findGroup_insertGroup_of_mem k t htail hx

theorem findGroup_mem : ∀ {m : List (String × List String)} {key : String} {ts : List String},
    findGroup m key = some ts → (key, ts) ∈ m
  | [], key, ts, h => by simp [findGroup] at h
  | (k', ts') :: rest, key, ts, h => by
    simp only [findGroup] at h
    by_cases hkey : (key == k') = true
    · rw [if_pos hkey] at h
      have h1 : key = k' := by simpa using hkey
      have h2 : ts' = ts := by simpa using h
      subst h1
      subst h2
      exact List.mem_cons_self _ _
    · rw [if_neg hkey] at h
      exact List.mem_cons_of_mem _ (findGroup_mem h)

theorem go_sorted (cr : List (String × String)) :
    ∀ (ts : List String) (acc : List (String × List String)), SortedKeys acc →
    SortedKeys (distribute_merged_go cr ts acc).1
  | [], acc, hs => hs
  | t :: rest, acc, hs => by
    simp only [distribute_merged_go]
    exact go_sorted cr rest _ (insertGroup_sorted _ t hs)

theorem go_mem (cr : List (String × String)) :
    ∀ (ts : List String) (acc : List (String × List String)) (key x : String),
    SortedKeys acc →
    (x ∈ (findGroup acc key).getD [] ∨
      (x ∈ ts ∧ (resolve_runner_with_default x cr).1 = key)) →
    x ∈ (findGroup (distribute_merged_go cr ts acc).1 key).getD []
  | [], acc, key, x, _, h => by
    rcases h with h | ⟨h, _⟩
    · exact h
    · simp at h
  | t :: rest, acc, key, x, hs, h => by
    simp only [distribute_merged_go]
    have hs' : SortedKeys (insertGroup acc (resolve_runner_with_default t cr).1 t) :=
      insertGroup_sorted _ t hs
    rcases h with h | ⟨hmem, hkey⟩
    · exact go_mem cr rest _ key x hs'
        (Or.inl (mem_findGroup_insertGroup_of_mem _ t hs h))
    · rcases List.mem_cons.mp hmem with hx | hx
      · subst hx
        refine go_mem cr rest _ key x hs' (Or.inl ?_)
        rw [← hkey]
        exact mem_findGroup_insertGroup_self acc _ x
      · exact go_mem cr rest _ key x hs' (Or.inr ⟨hx, hkey⟩)

theorem flatten_insertGroup : ∀ (m : List (String × List String)) (k t : String),
    List.Perm ((insertGroup m k t).map Prod.snd).flatten (t :: (m.map Prod.snd).flatten)
  | [], k, t => by simp [insertGroup]
  | (k', ts) :: rest, k, t => by
    simp only [insertGroup]
    split
    · simp only [List.map_cons, List.flatten_cons, List.append_assoc,
        List.singleton_append]
      exact List.perm_middle
    · split
      · simp
      · simp only [List.map_cons, List.flatten_cons]
        refine ((flatten_insertGroup rest k t).append_left ts).trans ?_
        exact List.perm_middle

theorem go_flatten (cr : List (String × String)) :
    ∀ (ts : List String) (acc : List (String × List String)),
    List.Perm ((distribute_merged_go cr ts acc).1.map Prod.snd).flatten
      ((acc.map Prod.snd).flatten ++ ts)
  | [], acc => by simp [distribute_merged_go]
  | t :: rest, acc => by
    simp only [distribute_merged_go]
    refine (go_flatten cr rest _).trans ?_
    refine ((flatten_insertGroup acc _ t).append_right rest).trans ?_
    exact (List.perm_middle).symm.trans (List.Perm.refl _)

theorem insertGroup_length : ∀ (m : List (String × List String)) (k t : String),
    (insertGroup m k t).length ≤ m.length + 1
  | [], _, _ => by simp [insertGroup]
  | (k', ts) :: rest, k, t => by
    simp only [insertGroup]
    split
    · simp
    · split
      · simp
      · simp only [List.length_cons]
        have := insertGroup_length rest k t
        omega

theorem go_length (cr : List (String × String)) :
    ∀ (ts : List String) (acc : List (String × List String)),
    (distribute_merged_go cr ts acc).1.length ≤ acc.length + ts.length
  | [], acc => by simp [distribute_merged_go]
  | t :: rest, acc => by
    simp only [distribute_merged_go]
    have h1 := go_length cr rest (insertGroup acc (resolve_runner_with_default t cr).1 t)
    have h2 := insertGroup_length acc (resolve_runner_with_default t cr).1 t
    simp only [List.length_cons]
    omega

theorem split_length (cr : List (String × String)) :
    ∀ ts : List String, (distribute_targets_to_runners_split ts cr).1.length = ts.length
  | [] => rfl
  | t :: rest => by
    simp only [distribute_targets_to_runners_split, List.length_cons]
    rw [split_length cr rest]

theorem split_flatten (cr : List (String × String)) :
    ∀ ts : List String,
    ((distribute_targets_to_runners_split ts cr).1.map Prod.snd).flatten = ts
  | [] => rfl
  | t :: rest => by
    simp only [distribute_targets_to_runners_split, List.map_cons, List.flatten_cons,
      List.singleton_append]
    rw [split_flatten cr rest]

theorem countP_flatten_zero (t : String) :
    ∀ L : List (List String), t ∉ L.flatten →
    L.countP (fun g => decide (t ∈ g)) = 0 := by
  intro L hL
  refine List.countP_eq_zero.mpr ?_
  intro g hg hmem
  exact hL (List.mem_flatten.mpr ⟨g, hg, by simpa using hmem⟩)

theorem countP_flatten_one (t : String) :
    ∀ L : List (List String), L.flatten.Nodup → t ∈ L.flatten →
    L.countP (fun g => decide (t ∈ g)) = 1
  | [], _, ht => by simp at ht
  | g :: rest, hn, ht => by
    rw [List.flatten_cons] at hn ht
    rcases List.nodup_append.mp hn with ⟨hg, hrest, hdisj⟩
    by_cases hmem : t ∈ g
    · rw [List.countP_cons_of_pos _ _ (by simpa using hmem)]
      rw [countP_flatten_zero t rest (fun hr => hdisj hmem hr)]
    · rw [List.countP_cons_of_neg _ _ (by simpa using hmem)]
      rcases List.mem_append.mp ht with h | h
      · exact absurd h hmem
      · exact countP_flatten_one t rest hrest h

theorem countP_groups (t : String) (m : List (String × List String)) :
    m.countP (fun g => decide (t ∈ g.2)) =
      (m.map Prod.snd).countP (fun g => decide (t ∈ g)) := by
  rw [List.countP_map]
  rfl

/-! ## Merge-engine helper lemmas -/

theorem applyOpt_idem {α : Type} (acc frag : Option α) :
    applyOpt (applyOpt acc frag) frag = applyOpt acc frag := by
  cases frag <;> rfl

theorem applyVal_idem {α : Type} (acc : α) (frag : Option α) :
    applyVal (applyVal acc frag) frag = applyVal acc frag := by
  cases frag <;> rfl

theorem applyValLayerC_idem (acc : SubConfig) (frag : Option SubSparse) :
    applyValLayerC (applyValLayerC acc frag) frag = applyValLayerC acc frag := by
  cases frag with
  | none => rfl
  | some f =>
    funext i
    simp only [applyValLayerC]
    cases f i <;> rfl

theorem applyValLayerI_idem (acc : SubSparse) (frag : Option SubSparse) :
    applyValLayerI (applyValLayerI acc frag) frag = applyValLayerI acc frag := by
  cases frag with
  | none => rfl
  | some f =>
    funext i
    simp only [applyValLayerI]
    cases f i <;> rfl

/-! ## Claim theorems -/

/-- C1, counterexample: with a prior vendored copy present and a fetched
byte stream whose hash differs from the expected hash, `vendor_repo` does
fail with the integrity-mismatch error carrying expected hash, actual hash
and repository identity, but the destination is NOT left unchanged: the
prior copy was removed before the integrity check, so the destination ends
up absent. -/
theorem vendor_repo_prior_copy_not_preserved :
    (vendor_repo vendorCexEnv "actions/download-artifact" "expectedhash" ⟨some [9]⟩).1 =
      Except.error (VendorError.vendoredActionHashMismatch "expectedhash" "actualhash"
        "actions/download-artifact") ∧
    (vendor_repo vendorCexEnv "actions/download-artifact" "expectedhash" ⟨some [9]⟩).2.dest =
      none ∧
    (⟨some [9]⟩ : FsState).dest ≠ none :=
  ⟨rfl, rfl, by decide⟩

/-- C1, amended: on a hash mismatch `vendor_repo` fails with the
integrity-mismatch error carrying the expected hash, the actual hash of
the fetched bytes, and the repository identity, and the destination is
left absent (any prior vendored copy has already been removed before the
integrity check, so it does not survive the failure); the destination only
ever holds a fully verified archive or an untouched prior copy (the latter
only when removing it failed, which aborts the operation before any
fetch); a successful run leaves exactly the verified fetched archive at
the destination. -/
theorem vendor_repo_integrity (env : VendorEnv) (repo expected_hash : String)
    (st : FsState) :
    (∀ e a r, (vendor_repo env repo expected_hash st).1 =
        Except.error (VendorError.vendoredActionHashMismatch e a r) →
      e = expected_hash ∧ r = repo ∧
      (∃ bytes, env.fetch = some bytes ∧ a = env.hash bytes) ∧
      a ≠ expected_hash ∧
      (vendor_repo env repo expected_hash st).2.dest = none) ∧
    (∀ bytes, (vendor_repo env repo expected_hash st).2.dest = some bytes →
      (env.fetch = some bytes ∧ env.hash bytes = expected_hash ∧
        (vendor_repo env repo expected_hash st).1 = Except.ok ()) ∨
      ((vendor_repo env repo expected_hash st).2 = st ∧ st.dest = some bytes)) ∧
    ((vendor_repo env repo expected_hash st).1 = Except.ok () →
      ∃ bytes, env.fetch = some bytes ∧ env.hash bytes = expected_hash ∧
        (vendor_repo env repo expected_hash st).2.dest = some bytes) := by
  by_cases hrm : (st.dest.isSome && !env.remove_ok) = true
  · simp only [vendor_repo, if_pos hrm]
    refine ⟨?_, ?_, ?_⟩
    · intro e a r h
      simp at h
    · intro bytes h
      exact Or.inr ⟨by trivial, h⟩
    · intro h
      simp at h
  · cases hf : env.fetch with
    | none =>
      simp only [vendor_repo, if_neg hrm, hf]
      refine ⟨?_, ?_, ?_⟩
      · intro e a r h
        simp at h
      · intro bytes h
        simp at h
      · intro h
        simp at h
    | some bytes =>
      by_cases hh : (env.hash bytes != expected_hash) = true
      · simp only [vendor_repo, if_neg hrm, hf, if_pos hh]
        refine ⟨?_, ?_, ?_⟩
        · intro e a r h
          simp only [Except.error.injEq,
            VendorError.vendoredActionHashMismatch.injEq] at h
          rcases h with ⟨he, ha, hr⟩
          subst he
          subst ha
          subst hr
          exact ⟨by trivial, by trivial, ⟨bytes, by trivial, by trivial⟩,
            by simpa using hh, by trivial⟩
        · intro b h
          simp at h
        · intro h
          simp at h
      · have hh' : env.hash bytes = expected_hash := by simpa using hh
        by_cases hw : (!env.write_ok) = true
        · simp only [vendor_repo, if_neg hrm, hf, if_neg hh, if_pos hw]
          refine ⟨?_, ?_, ?_⟩
          · intro e a r h
            simp at h
          · intro b h
            simp at h
          · intro h
            simp at h
        · by_cases hu : (!env.untar_ok) = true
          · simp only [vendor_repo, if_neg hrm, hf, if_neg hh, if_neg hw, if_pos hu]
            refine ⟨?_, ?_, ?_⟩
            · intro e a r h
              simp at h
            · intro b h
              simp at h
            · intro h
              simp at h
          · by_cases hr2 : (!env.rename_ok) = true
            · simp only [vendor_repo, if_neg hrm, hf, if_neg hh, if_neg hw, if_neg hu,
                if_pos hr2]
              refine ⟨?_, ?_, ?_⟩
              · intro e a r h
                simp at h
              · intro b h
                simp at h
              · intro h
                simp at h
            · simp only [vendor_repo, if_neg hrm, hf, if_neg hh, if_neg hw, if_neg hu,
                if_neg hr2]
              refine ⟨?_, ?_, ?_⟩
              · intro e a r h
                simp at h
              · intro b h
                simp only [Option.some.injEq] at h
                subst h
                exact Or.inl ⟨by trivial, hh', by trivial⟩
              · intro _
                exact ⟨bytes, by trivial, hh', by trivial⟩

/-- C1, witness for the amended theorem: in the concrete mismatch run the
destination ends up absent. -/
theorem vendor_repo_integrity_witness :
    (vendor_repo vendorCexEnv "actions/download-artifact" "expectedhash"
      ⟨some [9]⟩).2.dest = none := by
  have h := (vendor_repo_integrity vendorCexEnv "actions/download-artifact" "expectedhash"
    ⟨some [9]⟩).1 "expectedhash" "actualhash" "actions/download-artifact" rfl
  exact h.2.2.2.2

/-- C2: planning does NOT always complete for a non-empty target set.  For
the non-empty target set `["wasm32-wasi"]` (a triple matching no known
platform family, with no override) runner distribution does recover with
the default Linux runner and records the warning, but the subsequent
installer selection `install_dist_for_targets` on the same group reaches
its `unreachable!("internal error: unknown target triple!?")` panic
(modelled as `none`), aborting the plan. -/
theorem install_dist_unknown_family_panics (install_sh install_ps1 : String) :
    ["wasm32-wasi"] ≠ ([] : List String) ∧
    distribute_targets_to_runners_split ["wasm32-wasi"] [] =
      ([(GITHUB_LINUX_RUNNER, ["wasm32-wasi"])], ["wasm32-wasi"]) ∧
    distribute_targets_to_runners_merged ["wasm32-wasi"] [] =
      ([(GITHUB_LINUX_RUNNER, ["wasm32-wasi"])], ["wasm32-wasi"]) ∧
    install_dist_for_targets ["wasm32-wasi"] install_sh install_ps1 = none := by
  have h1 : (strContains "wasm32-wasi" "linux" || strContains "wasm32-wasi" "apple") =
      false := by decide
  have h2 : strContains "wasm32-wasi" "windows" = false := by decide
  refine ⟨by simp, by decide, by decide, ?_⟩
  simp [install_dist_for_targets, h1, h2]

/-- C3, counterexample: for a Linux musl-libc target with an empty
dependency declaration set (so the filtered set is empty),
`package_install_for_targets` does not return `none`: the fixed extra
package `musl-tools` is appended before the emptiness check, producing an
install command. -/
theorem package_install_musl_not_none :
    package_install_for_targets ["x86_64-unknown-linux-musl"] ⟨[], [], []⟩ =
      some "sudo apt-get update && sudo apt-get install musl-tools" ∧
    package_install_for_targets ["x86_64-unknown-linux-musl"] ⟨[], [], []⟩ ≠ none := by
  refine ⟨by decide, by decide⟩

/-- C3, amended: when every family-matching target of the group has an
empty filtered declaration set, `package_install_for_targets` returns "no
installation needed" (`none`) — EXCEPT for Linux musl-libc targets, where
`musl-tools` is always appended, so a musl target with an empty filtered
set still yields an apt install command. -/
theorem package_install_empty_filtered (targets : List String)
    (packages : SystemDependencies) :
    ((∀ t ∈ targets,
        (t ∈ appleTargets → homebrewFiltered t packages = []) ∧
        (t ∈ linuxTargets → aptFiltered t packages = [] ∧
          strEndsWith t "linux-musl" = false) ∧
        (t ∈ windowsTargets → chocoCommands t packages = [])) →
      package_install_for_targets targets packages = none) ∧
    (∀ t, t ∈ linuxTargets → strEndsWith t "linux-musl" = true →
      aptFiltered t packages = [] →
      package_install_for_targets (t :: targets) packages =
        some "sudo apt-get update && sudo apt-get install musl-tools") := by
  constructor
  · intro h
    induction targets with
    | nil => rfl
    | cons t rest ih =>
      have ht := h t (List.mem_cons_self t rest)
      simp only [package_install_for_targets]
      by_cases h1 : t ∈ appleTargets
      · rw [if_pos h1, ht.1 h1]
        simp
      · rw [if_neg h1]
        by_cases h2 : t ∈ linuxTargets
        · rcases ht.2.1 h2 with ⟨hapt, hmusl⟩
          rw [if_pos h2]
          simp [hapt, hmusl]
        · rw [if_neg h2]
          by_cases h3 : t ∈ windowsTargets
          · rw [if_pos h3, ht.2.2 h3]
            simp
          · rw [if_neg h3]
            exact ih (fun u hu => h u (List.mem_cons_of_mem t hu))
  · intro t ht hmusl hapt
    have hna : t ∉ appleTargets := by
      simp only [linuxTargets, List.mem_cons, List.not_mem_nil, or_false] at ht
      rcases ht with rfl | rfl | rfl | rfl | rfl | rfl <;> decide
    simp only [package_install_for_targets]
    rw [if_neg hna, if_pos ht]
    simp [hapt, hmusl]
    rfl

/-- C3, witness for the amended theorem: a linux-gnu target with no
declared dependencies yields `none`; a linux-musl target in the same
situation yields the musl-tools install command. -/
theorem package_install_empty_filtered_witness :
    package_install_for_targets ["x86_64-unknown-linux-gnu"] ⟨[], [], []⟩ = none ∧
    package_install_for_targets ["x86_64-unknown-linux-musl", "wasm32-wasi"] ⟨[], [], []⟩ =
      some "sudo apt-get update && sudo apt-get install musl-tools" := by
  constructor
  · exact (package_install_empty_filtered ["x86_64-unknown-linux-gnu"] ⟨[], [], []⟩).1
      (by decide)
  · exact (package_install_empty_filtered ["wasm32-wasi"] ⟨[], [], []⟩).2
      "x86_64-unknown-linux-musl" (by decide) (by decide) (by decide)

/-- C4: for every duplicate-free target set and both strategies, no
target is dropped or duplicated: the split strategy emits exactly one
group per target, the merged strategy emits at most one group per target,
the concatenation of all group target lists is a permutation of the
target set, and every target lies in exactly one emitted group. -/
theorem distribute_targets_partition (targets : List String)
    (cr : List (String × String)) (hnd : targets.Nodup) :
    (distribute_targets_to_runners_split targets cr).1.length = targets.length ∧
    (distribute_targets_to_runners_merged targets cr).1.length ≤ targets.length ∧
    List.Perm (((distribute_targets_to_runners_split targets cr).1.map Prod.snd).flatten)
      targets ∧
    List.Perm (((distribute_targets_to_runners_merged targets cr).1.map Prod.snd).flatten)
      targets ∧
    (∀ t ∈ targets,
      (distribute_targets_to_runners_split targets cr).1.countP
        (fun g => decide (t ∈ g.2)) = 1) ∧
    (∀ t ∈ targets,
      (distribute_targets_to_runners_merged targets cr).1.countP
        (fun g => decide (t ∈ g.2)) = 1) := by
  have hsplit_flat := split_flatten cr targets
  have hmerged_flat : List.Perm
      (((distribute_targets_to_runners_merged targets cr).1.map Prod.snd).flatten)
      targets := by
    have h := go_flatten cr targets []
    simpa [distribute_targets_to_runners_merged] using h
  have hmerged_len :
      (distribute_targets_to_runners_merged targets cr).1.length ≤ targets.length := by
    have h := go_length cr targets []
    simpa [distribute_targets_to_runners_merged] using h
  refine ⟨split_length cr targets, hmerged_len, by rw [hsplit_flat], hmerged_flat, ?_, ?_⟩
  · intro t ht
    rw [countP_groups]
    exact countP_flatten_one t _ (by rw [hsplit_flat]; exact hnd)
      (by rw [hsplit_flat]; exact ht)
  · intro t ht
    rw [countP_groups]
    exact countP_flatten_one t _ (hmerged_flat.symm.nodup hnd)
      (hmerged_flat.mem_iff.mpr ht)

/-- C4, witness: on the concrete two-target set the split strategy emits
two groups and the merged strategy assigns the linux target to exactly one
group. -/
theorem distribute_targets_partition_witness :
    (distribute_targets_to_runners_split
      ["aarch64-apple-darwin", "x86_64-unknown-linux-gnu"] []).1.length = 2 ∧
    (distribute_targets_to_runners_merged
      ["aarch64-apple-darwin", "x86_64-unknown-linux-gnu"] []).1.countP
      (fun g => decide ("x86_64-unknown-linux-gnu" ∈ g.2)) = 1 := by
  have h := distribute_targets_partition
    ["aarch64-apple-darwin", "x86_64-unknown-linux-gnu"] [] (by decide)
  exact ⟨h.1, h.2.2.2.2.2 "x86_64-unknown-linux-gnu" (by decide)⟩

/-- C5: runner resolution consults the override table first by exact
match; otherwise the substring family rules fire in the fixed priority
order linux, x86_64-apple, aarch64-apple, windows, yielding the documented
runner of the first matching family; when no family matches, resolution
yields no runner and the caller falls back to the default Linux runner,
recording a warning. -/
theorem github_runner_resolution (target : String) (cr : List (String × String)) :
    (∀ r, lookupStr cr target = some r →
      github_runner_for_target target cr = some r) ∧
    (lookupStr cr target = none → strContains target "linux" = true →
      github_runner_for_target target cr = some GITHUB_LINUX_RUNNER) ∧
    (lookupStr cr target = none → strContains target "linux" = false →
      strContains target "x86_64-apple" = true →
      github_runner_for_target target cr = some GITHUB_MACOS_INTEL_RUNNER) ∧
    (lookupStr cr target = none → strContains target "linux" = false →
      strContains target "x86_64-apple" = false →
      strContains target "aarch64-apple" = true →
      github_runner_for_target target cr = some GITHUB_MACOS_ARM64_RUNNER) ∧
    (lookupStr cr target = none → strContains target "linux" = false →
      strContains target "x86_64-apple" = false →
      strContains target "aarch64-apple" = false →
      strContains target "windows" = true →
      github_runner_for_target target cr = some GITHUB_WINDOWS_RUNNER) ∧
    (lookupStr cr target = none → strContains target "linux" = false →
      strContains target "x86_64-apple" = false →
      strContains target "aarch64-apple" = false →
      strContains target "windows" = false →
      github_runner_for_target target cr = none ∧
      resolve_runner_with_default target cr = (GITHUB_LINUX_RUNNER, true)) := by
  refine ⟨?_, ?_, ?_, ?_, ?_, ?_⟩
  · intro r h
    simp [github_runner_for_target, h]
  · intro h0 h1
    simp [github_runner_for_target, h0, h1]
  · intro h0 h1 h2
    simp [github_runner_for_target, h0, h1, h2]
  · intro h0 h1 h2 h3
    simp [github_runner_for_target, h0, h1, h2, h3]
  · intro h0 h1 h2 h3 h4
    simp [github_runner_for_target, h0, h1, h2, h3, h4]
  · intro h0 h1 h2 h3 h4
    constructor
    · simp [github_runner_for_target, h0, h1, h2, h3, h4]
    · simp [resolve_runner_with_default, github_runner_for_target, h0, h1, h2, h3, h4]

/-- C5, witness: a linux triple with no override resolves to the
documented Linux runner. -/
theorem github_runner_resolution_witness :
    github_runner_for_target "x86_64-unknown-linux-gnu" [] = some GITHUB_LINUX_RUNNER :=
  (github_runner_resolution "x86_64-unknown-linux-gnu" []).2.1 rfl (by decide)

/-- C6: in `app_config` the workspace fragment is applied to the package
defaults before the package-local fragment, so every configuration field
explicitly set in both fragments carries the package-local fragment's
value in the resolved package configuration (for the path-bearing fields
of `artifacts`/`hosts`, the package-local value relativized against the
package root by the per-fragment path normalization); the workspace value
never survives. -/
theorem app_config_local_overrides (defaults : AppConfigInheritable)
    (ws : WorkspaceFallback) (wdir proot : Value) (global lcl : TomlLayer) :
    (∀ b b', global.dist = some b' → lcl.dist = some b →
      (app_config defaults ws wdir proot global lcl).dist = some b) ∧
    (∀ ts ts', global.targets = some ts' → lcl.targets = some ts →
      (app_config defaults ws wdir proot global lcl).targets = ts) ∧
    (∀ fg fl i v, global.builds = some fg → lcl.builds = some fl → fl i = some v →
      (app_config defaults ws wdir proot global lcl).builds i = v) ∧
    (∀ fg fl i v, global.installers = some fg → lcl.installers = some fl →
      fl i = some v →
      (app_config defaults ws wdir proot global lcl).installers i = v) ∧
    (∀ fg fl i v, global.publishers = some fg → lcl.publishers = some fl →
      fl i = some v →
      (app_config defaults ws wdir proot global lcl).publishers i = v) ∧
    (∀ fg fl i v, global.hosts = some fg → lcl.hosts = some fl → fl i = some v →
      (app_config defaults ws wdir proot global lcl).hosts i =
        if i.val ∈ hostsPathFields then make_path_relative_to proot v else v) ∧
    (∀ fg fl i v, global.artifacts = some fg → lcl.artifacts = some fl →
      fl i = some v →
      (app_config defaults ws wdir proot global lcl).artifacts i =
        if i.val ∈ artifactsPathFields then make_path_relative_to proot v else v) := by
  refine ⟨?_, ?_, ?_, ?_, ?_, ?_, ?_⟩
  · intro b b' hg hl
    simp [app_config, TomlLayer.make_relative_to, AppConfigInheritable.apply_layer,
      AppConfigInheritable.apply_inheritance_for_package, applyOpt, hg, hl]
  · intro ts ts' hg hl
    simp [app_config, TomlLayer.make_relative_to, AppConfigInheritable.apply_layer,
      AppConfigInheritable.apply_inheritance_for_package, applyVal, hg, hl]
  · intro fg fl i v hg hl hv
    simp [app_config, TomlLayer.make_relative_to, AppConfigInheritable.apply_layer,
      AppConfigInheritable.apply_inheritance_for_package, applyValLayerI, inheritSub,
      hg, hl, hv]
  · intro fg fl i v hg hl hv
    simp [app_config, TomlLayer.make_relative_to, AppConfigInheritable.apply_layer,
      AppConfigInheritable.apply_inheritance_for_package, applyValLayerI, inheritSub,
      hg, hl, hv]
  · intro fg fl i v hg hl hv
    simp [app_config, TomlLayer.make_relative_to, AppConfigInheritable.apply_layer,
      AppConfigInheritable.apply_inheritance_for_package, applyValLayerI, inheritSub,
      hg, hl, hv]
  · intro fg fl i v hg hl hv
    by_cases hp : i.val ∈ hostsPathFields
    · simp [app_config, TomlLayer.make_relative_to, AppConfigInheritable.apply_layer,
        AppConfigInheritable.apply_inheritance_for_package, applyValLayerI, inheritSub,
        rewriteSub, hg, hl, hv, hp]
    · simp [app_config, TomlLayer.make_relative_to, AppConfigInheritable.apply_layer,
        AppConfigInheritable.apply_inheritance_for_package, applyValLayerI, inheritSub,
        rewriteSub, hg, hl, hv, hp]
  · intro fg fl i v hg hl hv
    by_cases hp : i.val ∈ artifactsPathFields
    · simp [app_config, TomlLayer.make_relative_to, AppConfigInheritable.apply_layer,
        AppConfigInheritable.apply_inheritance_for_package, applyValLayerC,
        rewriteSub, hg, hl, hv, hp]
    · simp [app_config, TomlLayer.make_relative_to, AppConfigInheritable.apply_layer,
        AppConfigInheritable.apply_inheritance_for_package, applyValLayerC,
        rewriteSub, hg, hl, hv, hp]

/-- C6, witness: with `dist` set to `false` by the workspace fragment and
`true` by the package fragment, the resolved package configuration has
`dist = some true`. -/
theorem app_config_local_overrides_witness :
    (app_config sampleDefaults sampleWs [] [] sampleLayerG sampleLayerL).dist =
      some true :=
  (app_config_local_overrides sampleDefaults sampleWs [] [] sampleLayerG
    sampleLayerL).1 true false rfl rfl

/-- C7: each scope's `apply_layer` honors fields only in its own scope:
the workspace-scope merge leaves the accumulator's `hosts`, `builds` and
`installers` untouched and its result depends only on the fragment's `ci`,
`dist_version` and `allow_dirty` (the app-scope fields have no effect);
the package-scope merge's result depends only on the fragment's app-scope
fields (`ci`, `allow_dirty`, `dist_version` have no effect).  The
destructuring in the source gives every fragment field an explicit
disposition. -/
theorem apply_layer_scope_frame :
    (∀ (acc : WorkspaceConfigInheritable) (l : TomlLayer),
      (acc.apply_layer l).hosts = acc.hosts ∧
      (acc.apply_layer l).builds = acc.builds ∧
      (acc.apply_layer l).installers = acc.installers) ∧
    (∀ (acc : WorkspaceConfigInheritable) (l l' : TomlLayer),
      l.ci = l'.ci → l.dist_version = l'.dist_version → l.allow_dirty = l'.allow_dirty →
      acc.apply_layer l = acc.apply_layer l') ∧
    (∀ (acc : AppConfigInheritable) (l l' : TomlLayer),
      l.artifacts = l'.artifacts → l.builds = l'.builds → l.hosts = l'.hosts →
      l.installers = l'.installers → l.publishers = l'.publishers →
      l.dist = l'.dist → l.targets = l'.targets →
      acc.apply_layer l = acc.apply_layer l') := by
  refine ⟨?_, ?_, ?_⟩
  · intro acc l
    exact ⟨rfl, rfl, rfl⟩
  · intro acc l l' h1 h2 h3
    simp only [WorkspaceConfigInheritable.apply_layer, h1, h2, h3]
  · intro acc l l' h1 h2 h3 h4 h5 h6 h7
    simp only [AppConfigInheritable.apply_layer, h1, h2, h3, h4, h5, h6, h7]

/-- C7, witness: two fragments differing only in the app-scope field
`dist` produce the same workspace-scope accumulator. -/
theorem apply_layer_scope_frame_witness :
    sampleWsAcc.apply_layer sampleLayerG = sampleWsAcc.apply_layer sampleLayerL :=
  apply_layer_scope_frame.2.1 sampleWsAcc sampleLayerG sampleLayerL rfl rfl rfl

/-- C8: applying the same fragment twice in a row to either scope's
accumulator equals applying it once: set fields overwrite, unset fields
leave the accumulator untouched, so the second application changes
nothing. -/
theorem apply_layer_idempotent :
    (∀ (acc : WorkspaceConfigInheritable) (l : TomlLayer),
      (acc.apply_layer l).apply_layer l = acc.apply_layer l) ∧
    (∀ (acc : AppConfigInheritable) (l : TomlLayer),
      (acc.apply_layer l).apply_layer l = acc.apply_layer l) := by
  constructor
  · intro acc l
    obtain ⟨dv, ad, ci, ho, bu, ins⟩ := acc
    simp only [WorkspaceConfigInheritable.apply_layer]
    simp [applyValLayerI_idem, applyOpt_idem, applyVal_idem]
  · intro acc l
    obtain ⟨ar, bu, ho, ins, pub, d, tg⟩ := acc
    simp only [AppConfigInheritable.apply_layer]
    simp [applyValLayerC_idem, applyValLayerI_idem, applyOpt_idem, applyVal_idem]

/-- C9: the Debian-family scenario: `libssl-dev` pinned to `3.0`,
applicable to all Linux targets at build stage, selected for
`x86_64-unknown-linux-gnu`, renders an apt install command containing
`libssl-dev=3.0`. -/
theorem debian_libssl_scenario :
    package_install_for_targets ["x86_64-unknown-linux-gnu"] c9deps =
      some "sudo apt-get update && sudo apt-get install libssl-dev=3.0" ∧
    strContains "sudo apt-get update && sudo apt-get install libssl-dev=3.0"
      "libssl-dev=3.0" = true :=
  ⟨rfl, by decide⟩

/-- C10: the built-in Intel-mac and Apple-silicon-mac runner identities
are the same string, so under the merged strategy with no overrides any
target set containing both `x86_64-apple-darwin` and
`aarch64-apple-darwin` puts them into one shared runner group. -/
theorem macos_targets_share_runner_group (targets : List String)
    (hx : "x86_64-apple-darwin" ∈ targets) (ha : "aarch64-apple-darwin" ∈ targets) :
    GITHUB_MACOS_INTEL_RUNNER = GITHUB_MACOS_ARM64_RUNNER ∧
    ∃ g ∈ (distribute_targets_to_runners_merged targets []).1,
      "x86_64-apple-darwin" ∈ g.2 ∧ "aarch64-apple-darwin" ∈ g.2 := by
  refine ⟨rfl, ?_⟩
  have hkx : (resolve_runner_with_default "x86_64-apple-darwin" []).1 = "macos-12" := by
    decide
  have hka : (resolve_runner_with_default "aarch64-apple-darwin" []).1 = "macos-12" := by
    decide
  have hmx := go_mem [] targets [] "macos-12" "x86_64-apple-darwin" List.Pairwise.nil
    (Or.inr ⟨hx, hkx⟩)
  have hma := go_mem [] targets [] "macos-12" "aarch64-apple-darwin" List.Pairwise.nil
    (Or.inr ⟨ha, hka⟩)
  simp only [distribute_targets_to_runners_merged]
  cases hfind : findGroup (distribute_merged_go [] targets []).1 "macos-12" with
  | none =>
    rw [hfind] at hmx
    simp at hmx
  | some ts' =>
    rw [hfind] at hmx hma
    simp only [Option.getD_some] at hmx hma
    exact ⟨("macos-12", ts'), findGroup_mem hfind, hmx, hma⟩

/-- C10, witness: the two darwin targets share their group in a concrete
two-target plan. -/
theorem macos_targets_share_runner_group_witness :
    ∃ g ∈ (distribute_targets_to_runners_merged
        ["aarch64-apple-darwin", "x86_64-apple-darwin"] []).1,
      "x86_64-apple-darwin" ∈ g.2 ∧ "aarch64-apple-darwin" ∈ g.2 :=
  (macos_targets_share_runner_group ["aarch64-apple-darwin", "x86_64-apple-darwin"]
    (by decide) (by decide)).2

end CargoDist
